import Mathlib

/-!
Verification development for the `jobqueue` worker-pool library
(`src/jobqueue.c`, with `checkmem` from `src/misc.c`).

The embedding has two layers.

1. A sequential layer: each C function that runs inside a single
   mutex-protected critical section (or touches no shared state at all) is
   translated to a pure Lean function on an explicit queue state `JQ`.
   Allocation (`malloc`) is modelled by an `Option Unit` oracle argument:
   `some ()` means the allocation succeeded, `none` that it returned NULL.
   `checkmem` either aborts the process (modelled as `Except.error`) or
   returns.  Calls to pthread primitives are recorded as `SyncEvent`s so
   that signalling/waiting behaviour is visible in the model.

2. A concurrent layer: the whole system (one main thread running
   `JobQueue_addJob` / `JobQueue_waitOnJobs`, plus `nthreads` workers
   running `threadfun`) is a labelled transition system `Step` over
   `SysState`, with sequentially-consistent interleaving.  Every access to
   the shared fields (`todo`, `acceptingJobs`, `threadsStopped`) in the C
   code happens with the pool mutex held, so each lock...unlock critical
   section of the C code becomes one atomic transition.  Jobs are
   identified by the order of submission (job `k` is the `k`-th call of
   `JobQueue_addJob`); the ghost field `executed` records the jobs whose
   `jobfun` has been invoked (and whose writes are therefore in memory).
-/

namespace JobQueueC

/-- `struct Job` without its `next` link: the link becomes the `List`
structure of the pending list.  `jobfun` and `param` are abstract
identifiers for the function pointer and the opaque argument. -/
structure JobRec where
  jobfun : Nat
  param : Nat
deriving DecidableEq

/-- The fields of `struct JobQueue` that are plain data (the mutex and the
two condition variables are modelled behaviourally, via `SyncEvent`s and
the transition system). `todo` holds the pending list, head first. -/
structure JQ where
  todo : List JobRec
  acceptingJobs : Nat
  threadsStopped : Nat
  nthreads : Nat
deriving DecidableEq

/-- Calls of pthread primitives made by the C functions, in order. -/
inductive SyncEvent where
  | lock
  | unlock
  | signalWakeWorker
  | broadcastWakeWorker
  | signalWakeMain
  | waitWakeWorker
  | waitWakeMain
  | spawnThread
deriving DecidableEq

/-- `checkmem` (src/misc.c): dies with "allocation error" when its argument
is NULL, otherwise returns. -/
def checkmem (obj : Option Unit) : Except String Unit :=
  match obj with
  | none => Except.error "allocation error"
  | some _ => Except.ok ()

/-- Result of a successful `JobQueue_new`: the queue state, whether the
worker-handle array `jq->thread` came back NULL from `malloc` (the code
stores it without any check), and the pthread calls made. -/
structure NewResult where
  jq : JQ
  threadArrayNull : Bool
  events : List SyncEvent
deriving DecidableEq

/-- `JobQueue_new`: allocates the `JobQueue` (checked by `checkmem`),
initialises `todo = NULL`, `acceptingJobs = 1`, `threadsStopped = 0`,
stores `nthreads`, allocates the worker-handle array (NOT checked), and
runs the thread-creation loop `nthreads` times.  `jqAlloc` and
`threadAlloc` are the outcomes of the two `malloc` calls. -/
def JobQueue_new (nthreads : Nat) (jqAlloc threadAlloc : Option Unit) :
    Except String NewResult :=
  match checkmem jqAlloc with
  | Except.error e => Except.error e
  | Except.ok _ =>
      Except.ok
        { jq := { todo := [], acceptingJobs := 1, threadsStopped := 0,
                  nthreads := nthreads }
          threadArrayNull := threadAlloc.isNone
          events := List.replicate nthreads SyncEvent.spawnThread }

/-- `JobQueue_addJob`: allocates a `Job` (checked by `checkmem`), fills it
in, then under the mutex links it at the head of `jq->todo`, signals
`wakeWorker` once, and unlocks.  `jobAlloc` is the outcome of the
`malloc` call. -/
def JobQueue_addJob (jq : JQ) (jobfun param : Nat) (jobAlloc : Option Unit) :
    Except String (JQ × List SyncEvent) :=
  match checkmem jobAlloc with
  | Except.error e => Except.error e
  | Except.ok _ =>
      Except.ok
        ({ jq with todo := { jobfun := jobfun, param := param } :: jq.todo },
         [SyncEvent.lock, SyncEvent.signalWakeWorker, SyncEvent.unlock])

/-- The dequeue performed by `threadfun` while holding the mutex:
`job = jq->todo; jq->todo = jq->todo->next`.  Returns `none` when the list
is empty (in the C code the worker then waits or parks instead). -/
def threadfun_dequeue (jq : JQ) : Option (JobRec × JQ) :=
  match jq.todo with
  | [] => none
  | job :: rest => some (job, { jq with todo := rest })

/-- The `while(jq->threadsStopped < jq->nthreads)` loop of
`JobQueue_waitOnJobs`.  `stopped` is the value of `jq->threadsStopped`
currently observed; `obs` supplies the value observed after each
`pthread_cond_wait(&jq->wakeMain, ...)` returns (that field is written by
the workers while the main thread sleeps).  Returns the final observed
value and the pthread calls of the loop, or `none` when `obs` runs out
(the main thread is still blocked). -/
def waitLoop (nthreads : Nat) : Nat → List Nat → Option (Nat × List SyncEvent)
  | stopped, obs =>
    if stopped < nthreads then
      match obs with
      | [] => none
      | s2 :: rest =>
          match waitLoop nthreads s2 rest with
          | none => none
          | some (final, evs) =>
              some (final,
                SyncEvent.broadcastWakeWorker :: SyncEvent.waitWakeMain :: evs)
    else
      some (stopped, [])

/-- `JobQueue_waitOnJobs`: locks, sets `acceptingJobs = 0`, runs the wait
loop, unlocks.  The returned `JQ` carries the final observed value of
`threadsStopped`. -/
def JobQueue_waitOnJobs (jq : JQ) (obs : List Nat) :
    Option (JQ × List SyncEvent) :=
  match waitLoop jq.nthreads jq.threadsStopped obs with
  | none => none
  | some (final, evs) =>
      some ({ jq with acceptingJobs := 0, threadsStopped := final },
            SyncEvent.lock :: evs ++ [SyncEvent.unlock])

/-- `Job_free`: recursively frees a pending list.  The result is the
sequence of freed items in the order they are passed to `free` (the tail
of the list is freed before the node itself). -/
def Job_free : List JobRec → List JobRec
  | [] => []
  | job :: rest => Job_free rest ++ [job]

/-- The individual actions of `JobQueue_free`, in order. -/
inductive TeardownEvent where
  | destroyLock
  | destroyWakeWorker
  | destroyWakeMain
  | freeJob (j : JobRec)
  | freeThreadArray
  | freeStruct
deriving DecidableEq

/-- `JobQueue_free`: destroys the mutex and both condition variables, frees
the residual pending list with `Job_free`, then frees the worker-handle
array and the structure itself. -/
def JobQueue_free (jq : JQ) : List TeardownEvent :=
  [TeardownEvent.destroyLock, TeardownEvent.destroyWakeWorker,
   TeardownEvent.destroyWakeMain]
  ++ (Job_free jq.todo).map TeardownEvent.freeJob
  ++ [TeardownEvent.freeThreadArray, TeardownEvent.freeStruct]

/-! ## The concurrent transition system

Jobs are identified by submission index.  A worker is in state `idle` when
it is at the top of the `for(;;)` loop of `threadfun` (or blocked in
`pthread_cond_wait(&jq->wakeWorker, ...)` — a wait may end at any time, so
collapsing the two over-approximates the scheduler and in particular
admits spurious wakeups), `running j` between its dequeue of job `j` and
the `free(job)` after `job->jobfun(job->param)` returns, and `parked`
after it has executed `++jq->threadsStopped` and left `threadfun`. -/

/-- Per-worker state in `threadfun`. -/
inductive WState where
  | idle
  | running (jobId : Nat)
  | parked
deriving DecidableEq

/-- State of the main (owning) thread: still allowed to submit, blocked
inside `JobQueue_waitOnJobs`, or returned from it. -/
inductive MState where
  | submitting
  | waiting
  | done
deriving DecidableEq

/-- Global state of the interleaved system.  `nextId` is the number of
`JobQueue_addJob` calls made so far (so the submitted jobs are exactly
`0, ..., nextId - 1`); `executed` lists the jobs whose `jobfun` has been
invoked, in completion order. -/
structure SysState where
  todo : List Nat
  acceptingJobs : Nat
  threadsStopped : Nat
  nthreads : Nat
  workers : List WState
  main : MState
  nextId : Nat
  executed : List Nat
deriving DecidableEq

/-- The state right after `JobQueue_new nthreads` returns: empty list,
accepting, no worker stopped, `nthreads` workers just entering
`threadfun`, nothing submitted or executed. -/
def initState (nthreads : Nat) : SysState :=
  { todo := []
    acceptingJobs := 1
    threadsStopped := 0
    nthreads := nthreads
    workers := List.replicate nthreads WState.idle
    main := MState.submitting
    nextId := 0
    executed := [] }

/-- Transition labels; worker transitions carry the worker's index. -/
inductive Label where
  | submit
  | beginWait
  | endWait
  | dequeue (i : Nat)
  | finish (i : Nat)
  | park (i : Nat)
deriving DecidableEq

/-- One atomic transition of the system.  Each constructor is one critical
section of the C code (for `finish`, the lock-free job execution plus the
re-entry into the loop).

* `submit`: the critical section of `JobQueue_addJob` — link at head.
* `beginWait`: `JobQueue_waitOnJobs` acquires the lock and executes
  `jq->acceptingJobs = 0` (it then stays in its wait loop).
* `endWait`: the wait loop of `JobQueue_waitOnJobs` finds
  `jq->threadsStopped < jq->nthreads` false and the call returns.
* `dequeue`: an idle worker holds the lock, finds `jq->todo` non-NULL,
  unlinks the head and releases the lock.
* `finish`: a worker invokes `job->jobfun(job->param)`, frees the item and
  returns to the top of its loop.
* `park`: an idle worker holds the lock, finds `jq->todo == NULL` and
  `jq->acceptingJobs != 1`, leaves the loop, increments
  `jq->threadsStopped` (signalling `wakeMain` if it is the last) and
  releases the lock. -/
inductive Step : SysState → Label → SysState → Prop where
  | submit (s : SysState) (hm : s.main = MState.submitting) :
      Step s Label.submit
        { s with todo := s.nextId :: s.todo, nextId := s.nextId + 1 }
  | beginWait (s : SysState) (hm : s.main = MState.submitting) :
      Step s Label.beginWait
        { s with acceptingJobs := 0, main := MState.waiting }
  | endWait (s : SysState) (hm : s.main = MState.waiting)
      (hstop : ¬ s.threadsStopped < s.nthreads) :
      Step s Label.endWait { s with main := MState.done }
  | dequeue (s : SysState) (w1 w2 : List WState) (j : Nat) (rest : List Nat)
      (hw : s.workers = w1 ++ WState.idle :: w2)
      (ht : s.todo = j :: rest) :
      Step s (Label.dequeue w1.length)
        { s with todo := rest,
                 workers := w1 ++ WState.running j :: w2 }
  | finish (s : SysState) (w1 w2 : List WState) (j : Nat)
      (hw : s.workers = w1 ++ WState.running j :: w2) :
      Step s (Label.finish w1.length)
        { s with workers := w1 ++ WState.idle :: w2,
                 executed := s.executed ++ [j] }
  | park (s : SysState) (w1 w2 : List WState)
      (hw : s.workers = w1 ++ WState.idle :: w2)
      (ht : s.todo = [])
      (ha : ¬ s.acceptingJobs = 1) :
      Step s (Label.park w1.length)
        { s with workers := w1 ++ WState.parked :: w2,
                 threadsStopped := s.threadsStopped + 1 }

/-- States reachable from `initState n` by interleaved execution. -/
inductive Reach (n : Nat) : SysState → Prop where
  | init : Reach n (initState n)
  | step {s s2 : SysState} {l : Label} (hr : Reach n s) (hs : Step s l s2) :
      Reach n s2

/-- The jobs currently held (dequeued, not yet finished) by the workers. -/
def inFlight (ws : List WState) : List Nat :=
  ws.filterMap fun w =>
    match w with
    | WState.running j => some j
    | _ => none

/-- Whether a worker has parked. -/
def isParked : WState → Bool
  | WState.parked => true
  | _ => false

/-- Number of parked workers. -/
def countParked (ws : List WState) : Nat :=
  ws.countP isParked

/-- The inductive invariant of the system. -/
structure Inv (s : SysState) : Prop where
  hlen : s.workers.length = s.nthreads
  hacc : s.acceptingJobs = 1 ∨ s.acceptingJobs = 0
  haccMain : s.acceptingJobs = 1 ↔ s.main = MState.submitting
  hstopped : s.threadsStopped = countParked s.workers
  haccPark : s.acceptingJobs = 1 → countParked s.workers = 0
  hparkEmpty : 0 < countParked s.workers → s.todo = []
  hperm : (s.executed ++ inFlight s.workers ++ s.todo).Perm
            (List.range s.nextId)
  hdone : s.main = MState.done → s.nthreads ≤ s.threadsStopped

/-! ## A concrete run (one worker, one job), used to instantiate theorems -/

/-- Pool just created with one worker. -/
def exSt0 : SysState := initState 1

/-- After `JobQueue_addJob` (job 0 submitted). -/
def exSt1 : SysState := { exSt0 with todo := [0], nextId := 1 }

/-- `JobQueue_waitOnJobs` has set `acceptingJobs = 0`. -/
def exSt2 : SysState := { exSt1 with acceptingJobs := 0, main := MState.waiting }

/-- The worker has dequeued job 0. -/
def exSt3 : SysState := { exSt2 with todo := [], workers := [WState.running 0] }

/-- The worker has run job 0's function and freed the item. -/
def exSt4 : SysState := { exSt3 with workers := [WState.idle], executed := [0] }

/-- The worker has parked. -/
def exSt5 : SysState :=
  { exSt4 with workers := [WState.parked], threadsStopped := 1 }

/-- `JobQueue_waitOnJobs` has returned. -/
def exSt6 : SysState := { exSt5 with main := MState.done }

/-! ## Helper lemmas -/

theorem inFlight_append (a b : List WState) :
    inFlight (a ++ b) = inFlight a ++ inFlight b := by
  simp [inFlight]

theorem inFlight_cons_idle (t : List WState) :
    inFlight (WState.idle :: t) = inFlight t := by
  simp [inFlight, List.filterMap_cons]

theorem inFlight_cons_running (j : Nat) (t : List WState) :
    inFlight (WState.running j :: t) = j :: inFlight t := by
  simp [inFlight, List.filterMap_cons]

theorem inFlight_cons_parked (t : List WState) :
    inFlight (WState.parked :: t) = inFlight t := by
  simp [inFlight, List.filterMap_cons]

theorem inFlight_replicate_idle (n : Nat) :
    inFlight (List.replicate n WState.idle) = [] := by
  induction n with
  | zero => rfl
  | succ k ih => simp [List.replicate_succ, inFlight_cons_idle, ih]

theorem countParked_append (a b : List WState) :
    countParked (a ++ b) = countParked a + countParked b := by
  simp [countParked, List.countP_append]

theorem countParked_cons_idle (t : List WState) :
    countParked (WState.idle :: t) = countParked t := by
  simp [countParked, List.countP_cons, isParked]

theorem countParked_cons_running (j : Nat) (t : List WState) :
    countParked (WState.running j :: t) = countParked t := by
  simp [countParked, List.countP_cons, isParked]

theorem countParked_cons_parked (t : List WState) :
    countParked (WState.parked :: t) = countParked t + 1 := by
  simp [countParked, List.countP_cons, isParked]

theorem countParked_le_length (ws : List WState) :
    countParked ws ≤ ws.length :=
  List.countP_le_length _

theorem countParked_replicate_idle (n : Nat) :
    countParked (List.replicate n WState.idle) = 0 := by
  induction n with
  | zero => rfl
  | succ k ih => rw [List.replicate_succ, countParked_cons_idle, ih]

theorem inFlight_of_all_parked (ws : List WState)
    (h : countParked ws = ws.length) : inFlight ws = [] := by
  induction ws with
  | nil => rfl
  | cons w t ih =>
      have hle := countParked_le_length t
      rw [List.length_cons] at h
      cases w with
      | idle =>
          rw [countParked_cons_idle] at h
          omega
      | running j =>
          rw [countParked_cons_running] at h
          omega
      | parked =>
          rw [countParked_cons_parked] at h
          rw [inFlight_cons_parked]
          exact ih (by omega)

theorem Inv_init (n : Nat) : Inv (initState n) := by
  refine ⟨?_, Or.inl rfl, ⟨fun _ => rfl, fun _ => rfl⟩, ?_, ?_, ?_, ?_, ?_⟩
  · show (List.replicate n WState.idle).length = n
    simp
  · show (0 : Nat) = countParked (List.replicate n WState.idle)
    rw [countParked_replicate_idle]
  · intro _
    exact countParked_replicate_idle n
  · intro _
    rfl
  · show (([] : List Nat) ++ inFlight (List.replicate n WState.idle)
      ++ []).Perm (List.range 0)
    rw [inFlight_replicate_idle, List.range_zero]
    exact List.Perm.refl _
  · intro h
    exact absurd h (by simp [initState])

theorem Inv_step (s s2 : SysState) (l : Label) (hi : Inv s)
    (hs : Step s l s2) : Inv s2 := by
  obtain ⟨hlen, hacc, haccMain, hstopped, haccPark, hparkEmpty, hperm, hdone⟩ := hi
  cases hs with
  | submit hm =>
      refine ⟨hlen, hacc, haccMain, hstopped, haccPark, ?_, ?_, hdone⟩
      · intro h
        exact absurd h (by rw [haccPark (haccMain.mpr hm)]; omega)
      · show (s.executed ++ inFlight s.workers ++ (s.nextId :: s.todo)).Perm
          (List.range (s.nextId + 1))
        rw [← Multiset.coe_eq_coe] at hperm ⊢
        simp only [List.range_succ, ← Multiset.coe_add, ← Multiset.cons_coe,
          ← Multiset.singleton_add] at hperm ⊢
        rw [show ((s.executed : Multiset Nat) + ↑(inFlight s.workers)
            + ({s.nextId} + ↑s.todo)) =
            ({s.nextId} : Multiset Nat) + (↑s.executed
            + ↑(inFlight s.workers) + ↑s.todo) by abel, hperm]
        abel
  | beginWait hm =>
      refine ⟨hlen, Or.inr rfl, ?_, hstopped, ?_, hparkEmpty, hperm, ?_⟩
      · show (0 : Nat) = 1 ↔ MState.waiting = MState.submitting
        simp
      · intro h
        exact absurd h (by simp)
      · intro h
        exact absurd h (by simp)
  | endWait hm hstop =>
      refine ⟨hlen, hacc, ?_, hstopped, haccPark, hparkEmpty, hperm, ?_⟩
      · show s.acceptingJobs = 1 ↔ MState.done = MState.submitting
        constructor
        · intro h1
          have h2 := haccMain.mp h1
          rw [hm] at h2
          exact absurd h2 (by simp)
        · intro h
          exact absurd h (by simp)
      · intro _
        show s.nthreads ≤ s.threadsStopped
        omega
  | dequeue w1 w2 j rest hw ht =>
      have hcnt : countParked (w1 ++ WState.running j :: w2)
          = countParked s.workers := by
        rw [hw, countParked_append, countParked_append,
          countParked_cons_running, countParked_cons_idle]
      refine ⟨?_, hacc, haccMain, ?_, ?_, ?_, ?_, hdone⟩
      · show (w1 ++ WState.running j :: w2).length = s.nthreads
        rw [← hlen, hw]
        simp
      · show s.threadsStopped = countParked (w1 ++ WState.running j :: w2)
        rw [hcnt]
        exact hstopped
      · intro h1
        show countParked (w1 ++ WState.running j :: w2) = 0
        rw [hcnt]
        exact haccPark h1
      · intro h
        show rest = []
        rw [hcnt] at h
        have h2 := hparkEmpty h
        rw [ht] at h2
        exact absurd h2 (by simp)
      · show (s.executed ++ inFlight (w1 ++ WState.running j :: w2)
          ++ rest).Perm (List.range s.nextId)
        rw [hw, ht] at hperm
        rw [inFlight_append, inFlight_cons_idle] at hperm
        rw [inFlight_append, inFlight_cons_running]
        rw [← Multiset.coe_eq_coe] at hperm ⊢
        simp only [← Multiset.coe_add, ← Multiset.cons_coe,
          ← Multiset.singleton_add] at hperm ⊢
        rw [← hperm]
        abel
  | finish w1 w2 j hw =>
      have hcnt : countParked (w1 ++ WState.idle :: w2)
          = countParked s.workers := by
        rw [hw, countParked_append, countParked_append,
          countParked_cons_running, countParked_cons_idle]
      refine ⟨?_, hacc, haccMain, ?_, ?_, ?_, ?_, hdone⟩
      · show (w1 ++ WState.idle :: w2).length = s.nthreads
        rw [← hlen, hw]
        simp
      · show s.threadsStopped = countParked (w1 ++ WState.idle :: w2)
        rw [hcnt]
        exact hstopped
      · intro h1
        show countParked (w1 ++ WState.idle :: w2) = 0
        rw [hcnt]
        exact haccPark h1
      · intro h
        show s.todo = []
        rw [hcnt] at h
        exact hparkEmpty h
      · show ((s.executed ++ [j]) ++ inFlight (w1 ++ WState.idle :: w2)
          ++ s.todo).Perm (List.range s.nextId)
        rw [hw] at hperm
        rw [inFlight_append, inFlight_cons_running] at hperm
        rw [inFlight_append, inFlight_cons_idle]
        rw [← Multiset.coe_eq_coe] at hperm ⊢
        simp only [← Multiset.coe_add, ← Multiset.cons_coe,
          ← Multiset.singleton_add] at hperm ⊢
        rw [← hperm]
        abel
  | park w1 w2 hw ht ha =>
      have hcnt : countParked (w1 ++ WState.parked :: w2)
          = countParked s.workers + 1 := by
        rw [hw, countParked_append, countParked_append,
          countParked_cons_parked, countParked_cons_idle]
        omega
      refine ⟨?_, hacc, ?_, ?_, ?_, ?_, ?_, ?_⟩
      · show (w1 ++ WState.parked :: w2).length = s.nthreads
        rw [← hlen, hw]
        simp
      · show s.acceptingJobs = 1 ↔ s.main = MState.submitting
        constructor
        · intro h1
          exact absurd h1 ha
        · intro h
          exact absurd (haccMain.mpr h) ha
      · show s.threadsStopped + 1 = countParked (w1 ++ WState.parked :: w2)
        rw [hcnt, ← hstopped]
      · intro h1
        exact absurd h1 ha
      · intro _
        exact ht
      · show (s.executed ++ inFlight (w1 ++ WState.parked :: w2)
          ++ s.todo).Perm (List.range s.nextId)
        rw [hw] at hperm
        rw [inFlight_append, inFlight_cons_idle] at hperm
        rw [inFlight_append, inFlight_cons_parked]
        exact hperm
      · intro h
        show s.nthreads ≤ s.threadsStopped + 1
        have h2 := hdone h
        omega

theorem Reach_Inv {n : Nat} {s : SysState} (hr : Reach n s) : Inv s := by
  induction hr with
  | init => exact Inv_init n
  | step hr hs ih => exact Inv_step _ _ _ ih hs

theorem Reach_nthreads {n : Nat} {s : SysState} (hr : Reach n s) :
    s.nthreads = n := by
  induction hr with
  | init => rfl
  | step hr hs ih =>
      cases hs <;> exact ih

/-- Unfolding equation for one iteration of the `waitLoop` recursion. -/
theorem waitLoop_eq (n st : Nat) (obs : List Nat) :
    waitLoop n st obs =
      if st < n then
        match obs with
        | [] => none
        | s2 :: rest =>
            match waitLoop n s2 rest with
            | none => none
            | some (final, evs) =>
                some (final,
                  SyncEvent.broadcastWakeWorker :: SyncEvent.waitWakeMain :: evs)
      else some (st, []) := by
  rw [waitLoop.eq_def]

/-- Behaviour of the wait loop when it terminates: the exit test has
failed (`¬ final < n`), the final value equals `n` whenever all observed
values are bounded by `n`, and the loop's pthread calls are a sequence of
broadcast/wait pairs. -/
theorem waitLoop_spec (n : Nat) (obs : List Nat) :
    ∀ st final evs, waitLoop n st obs = some (final, evs) →
      ¬ final < n ∧
      (st ≤ n → (∀ x ∈ obs, x ≤ n) → final = n) ∧
      ∃ k, evs = (List.replicate k
        [SyncEvent.broadcastWakeWorker, SyncEvent.waitWakeMain]).flatten := by
  induction obs with
  | nil =>
      intro st final evs h
      rw [waitLoop_eq] at h
      by_cases hst : st < n
      · rw [if_pos hst] at h
        exact absurd h (by simp)
      · rw [if_neg hst] at h
        have h1 : st = final ∧ evs = [] := by
          simpa using h
        obtain ⟨hf, he⟩ := h1
        subst hf
        subst he
        exact ⟨hst, fun h1 _ => by omega, ⟨0, rfl⟩⟩
  | cons s2 rest ih =>
      intro st final evs h
      rw [waitLoop_eq] at h
      by_cases hst : st < n
      · rw [if_pos hst] at h
        dsimp only at h
        cases hrec : waitLoop n s2 rest with
        | none =>
            rw [hrec] at h
            exact absurd h (by simp)
        | some p =>
            obtain ⟨f2, evs2⟩ := p
            rw [hrec] at h
            have h1 : f2 = final ∧
                SyncEvent.broadcastWakeWorker
                  :: SyncEvent.waitWakeMain :: evs2 = evs := by
              simpa using h
            obtain ⟨hf, he⟩ := h1
            subst hf
            subst he
            obtain ⟨ih1, ih2, k, ih3⟩ := ih s2 f2 evs2 hrec
            refine ⟨ih1, ?_, ⟨k + 1, ?_⟩⟩
            · intro _ hb
              exact ih2 (hb s2 (by simp)) (fun x hx => hb x (by simp [hx]))
            · rw [ih3, List.replicate_succ, List.flatten_cons]
              rfl
      · rw [if_neg hst] at h
        have h1 : st = final ∧ evs = [] := by
          simpa using h
        obtain ⟨hf, he⟩ := h1
        subst hf
        subst he
        exact ⟨hst, fun h1 _ => by omega, ⟨0, rfl⟩⟩

/-- `Job_free` frees the list back to front. -/
theorem Job_free_eq_reverse (l : List JobRec) : Job_free l = l.reverse := by
  induction l with
  | nil => rfl
  | cons j rest ih => rw [Job_free, ih, List.reverse_cons]

/-- The concrete run reaches `exSt2`. -/
theorem exReach2 : Reach 1 exSt2 :=
  Reach.step (Reach.step Reach.init (Step.submit exSt0 rfl))
    (Step.beginWait exSt1 rfl)

/-- The concrete run reaches `exSt4`. -/
theorem exReach4 : Reach 1 exSt4 :=
  Reach.step (Reach.step exReach2 (Step.dequeue exSt2 [] [] 0 [] rfl rfl))
    (Step.finish exSt3 [] [] 0 rfl)

/-- The concrete run reaches `exSt6`. -/
theorem exReach6 : Reach 1 exSt6 :=
  Reach.step (Reach.step exReach4
      (Step.park exSt4 [] [] rfl rfl (by simp [exSt4, exSt3, exSt2, exSt1, exSt0, initState])))
    (Step.endWait exSt5 rfl (by simp [exSt5, exSt4, exSt3, exSt2, exSt1, exSt0, initState]))

/-! ## Claims -/

/-- C1: for every thread count `n ≥ 1`, in any reachable state of the
interleaved system in which `JobQueue_waitOnJobs` has returned
(`main = done`), the sequence of executed jobs is a permutation of the
submitted jobs `0, ..., nextId - 1`: every submitted job's function has
been invoked exactly once with its own argument (no job dropped, none run
twice).  `executed` is part of the single sequentially-consistent state
that the owning thread reads after the barrier, so the jobs' writes are
visible to it. -/
theorem C1_drain_executes_each_job_once (n : Nat) (hn : 1 ≤ n)
    (s : SysState) (hr : Reach n s) (hd : s.main = MState.done) :
    s.executed.Perm (List.range s.nextId) := by
  obtain ⟨hlen, _, _, hstopped, _, hparkEmpty, hperm, hdone⟩ := Reach_Inv hr
  have hnn : s.nthreads = n := Reach_nthreads hr
  have h1 : s.nthreads ≤ s.threadsStopped := hdone hd
  have h2 := countParked_le_length s.workers
  have h3 : countParked s.workers = s.workers.length := by omega
  have h4 : inFlight s.workers = [] := inFlight_of_all_parked _ h3
  have h5 : s.todo = [] := hparkEmpty (by omega)
  rw [h4, h5] at hperm
  simpa using hperm

/-- C1 witness: the concrete one-worker, one-job run. -/
theorem C1_drain_executes_each_job_once_witness :
    exSt6.executed.Perm (List.range exSt6.nextId) :=
  C1_drain_executes_each_job_once 1 (by omega) exSt6 exReach6 rfl

/-- C2 (the code violates the claim): the allocations of the `JobQueue`
structure and of a `Job` are checked by `checkmem` and fatal on failure,
but the worker-handle array allocation `jq->thread = malloc(...)` in
`JobQueue_new` is NOT checked: when that `malloc` returns NULL the
constructor still returns a handle whose thread array is NULL (the C code
then passes `&jq->thread[i]` to `pthread_create`), instead of aborting. -/
theorem C2_worker_handle_alloc_unchecked :
    (∀ n t, JobQueue_new n none t = Except.error "allocation error") ∧
    (∀ jq f p, JobQueue_addJob jq f p none
      = Except.error "allocation error") ∧
    JobQueue_new 1 (some ()) none =
      Except.ok
        { jq := { todo := [], acceptingJobs := 1, threadsStopped := 0,
                  nthreads := 1 }
          threadArrayNull := true
          events := [SyncEvent.spawnThread] } :=
  ⟨fun _ _ => rfl, fun _ _ _ => rfl, rfl⟩

/-- C3: a worker transitions to its terminal `parked` state (the only
transition that increments `threadsStopped`) only from a reachable state
whose pending list is empty and whose `acceptingJobs` flag is 0. -/
theorem C3_park_only_when_drained (n : Nat) (s s2 : SysState) (i : Nat)
    (hr : Reach n s) (hs : Step s (Label.park i) s2) :
    s.todo = [] ∧ s.acceptingJobs = 0 ∧
    s2.threadsStopped = s.threadsStopped + 1 := by
  obtain ⟨_, hacc, _, _, _, _, _, _⟩ := Reach_Inv hr
  cases hs with
  | park w1 w2 hw ht ha =>
      refine ⟨ht, ?_, rfl⟩
      cases hacc with
      | inl h => exact absurd h ha
      | inr h => exact h

/-- C3 witness: the park step of the concrete run. -/
theorem C3_park_only_when_drained_witness :
    exSt4.todo = [] ∧ exSt4.acceptingJobs = 0 ∧
    exSt5.threadsStopped = exSt4.threadsStopped + 1 :=
  C3_park_only_when_drained 1 exSt4 exSt5 0 exReach4
    (Step.park exSt4 [] [] rfl rfl
      (by simp [exSt4, exSt3, exSt2, exSt1, exSt0, initState]))

/-- C4: `JobQueue_waitOnJobs` locks, sets `acceptingJobs = 0`, then as
long as `threadsStopped < nthreads` broadcasts `wakeWorker` and waits on
`wakeMain`; when it returns, the loop test has failed, and (since the
observed values of `threadsStopped` never exceed `nthreads`) it returns
exactly when `threadsStopped = nthreads`.  In the interleaved system, a
state where the call has returned has `threadsStopped = nthreads` and all
workers parked. -/
theorem C4_waitOnJobs_barrier :
    (∀ jq obs jq2 evs, JobQueue_waitOnJobs jq obs = some (jq2, evs) →
      jq2.acceptingJobs = 0 ∧
      jq2.nthreads = jq.nthreads ∧
      ¬ jq2.threadsStopped < jq2.nthreads ∧
      (jq.threadsStopped ≤ jq.nthreads → (∀ x ∈ obs, x ≤ jq.nthreads) →
        jq2.threadsStopped = jq2.nthreads) ∧
      ∃ k, evs = SyncEvent.lock ::
        ((List.replicate k [SyncEvent.broadcastWakeWorker,
          SyncEvent.waitWakeMain]).flatten ++ [SyncEvent.unlock])) ∧
    (∀ n s, Reach n s → s.main = MState.done →
      s.threadsStopped = s.nthreads ∧
      countParked s.workers = s.workers.length) := by
  constructor
  · intro jq obs jq2 evs h
    rw [JobQueue_waitOnJobs] at h
    cases hrec : waitLoop jq.nthreads jq.threadsStopped obs with
    | none =>
        rw [hrec] at h
        exact absurd h (by simp)
    | some p =>
        obtain ⟨final, evsL⟩ := p
        rw [hrec] at h
        dsimp only at h
        have h1 : ({ jq with acceptingJobs := 0, threadsStopped := final }
            : JQ) = jq2 ∧
            SyncEvent.lock :: (evsL ++ [SyncEvent.unlock]) = evs := by
          simpa using h
        obtain ⟨hq, he⟩ := h1
        subst hq
        subst he
        obtain ⟨w1, w2, k, w3⟩ :=
          waitLoop_spec jq.nthreads obs jq.threadsStopped final evsL hrec
        refine ⟨rfl, rfl, w1, ?_, ⟨k, by rw [w3]⟩⟩
        intro hb1 hb2
        exact w2 hb1 hb2
  · intro n s hr hd
    obtain ⟨hlen, _, _, hstopped, _, _, _, hdone⟩ := Reach_Inv hr
    have h1 := hdone hd
    have h2 := countParked_le_length s.workers
    constructor
    · omega
    · omega

/-- C4 witness: a two-worker pool whose workers park one after the other
(observed `threadsStopped` values 1 then 2), plus the final state of the
concrete run. -/
theorem C4_waitOnJobs_barrier_witness :
    ((⟨[], 0, 2, 2⟩ : JQ).acceptingJobs = 0 ∧
      (⟨[], 0, 2, 2⟩ : JQ).threadsStopped = (⟨[], 0, 2, 2⟩ : JQ).nthreads) ∧
    (exSt6.threadsStopped = exSt6.nthreads ∧
      countParked exSt6.workers = exSt6.workers.length) := by
  have h := C4_waitOnJobs_barrier.1 ⟨[], 1, 0, 2⟩ [1, 2] ⟨[], 0, 2, 2⟩
    [SyncEvent.lock, SyncEvent.broadcastWakeWorker, SyncEvent.waitWakeMain,
     SyncEvent.broadcastWakeWorker, SyncEvent.waitWakeMain, SyncEvent.unlock]
    rfl
  exact ⟨⟨h.1, h.2.2.2.1 (by decide) (by decide)⟩,
    C4_waitOnJobs_barrier.2 1 exSt6 exReach6 rfl⟩

/-- C5: `JobQueue_addJob` links at the head and the worker dequeue removes
the head, so after pushing job A then job B with no intervening dequeue,
the next dequeue yields B, and the one after that yields A. -/
theorem C5_lifo_order (jq jq1 jq2 : JQ) (fA pA fB pB : Nat)
    (e1 e2 : List SyncEvent)
    (h1 : JobQueue_addJob jq fA pA (some ()) = Except.ok (jq1, e1))
    (h2 : JobQueue_addJob jq1 fB pB (some ()) = Except.ok (jq2, e2)) :
    threadfun_dequeue jq2 =
      some ({ jobfun := fB, param := pB },
        { jq2 with todo := { jobfun := fA, param := pA } :: jq.todo }) ∧
    threadfun_dequeue
        { jq2 with todo := { jobfun := fA, param := pA } :: jq.todo } =
      some ({ jobfun := fA, param := pA }, { jq2 with todo := jq.todo }) := by
  rw [JobQueue_addJob] at h1 h2
  dsimp only [checkmem] at h1 h2
  have h1e : ({ jq with todo := { jobfun := fA, param := pA } :: jq.todo }
      : JQ) = jq1 := by
    have := h1
    simp at this
    exact this.1
  subst h1e
  have h2e : ({ jq with todo := { jobfun := fB, param := pB } ::
      { jobfun := fA, param := pA } :: jq.todo } : JQ) = jq2 := by
    have := h2
    simp at this
    exact this.1
  subst h2e
  exact ⟨rfl, rfl⟩

/-- C5 witness: two concrete submissions into an empty one-worker pool. -/
theorem C5_lifo_order_witness :
    threadfun_dequeue ⟨[⟨4, 5⟩, ⟨2, 3⟩], 1, 0, 1⟩ =
      some (⟨4, 5⟩, ⟨[⟨2, 3⟩], 1, 0, 1⟩) ∧
    threadfun_dequeue ⟨[⟨2, 3⟩], 1, 0, 1⟩ =
      some (⟨2, 3⟩, ⟨[], 1, 0, 1⟩) :=
  C5_lifo_order ⟨[], 1, 0, 1⟩ ⟨[⟨2, 3⟩], 1, 0, 1⟩ ⟨[⟨4, 5⟩, ⟨2, 3⟩], 1, 0, 1⟩
    2 3 4 5 [SyncEvent.lock, SyncEvent.signalWakeWorker, SyncEvent.unlock]
    [SyncEvent.lock, SyncEvent.signalWakeWorker, SyncEvent.unlock] rfl rfl

/-- C6: one-shot shutdown.  No transition takes `acceptingJobs` from 0
back to 1: every transition either leaves the flag unchanged or is the
`beginWait` assignment to 0; at construction the flag is 1. -/
theorem C6_accepting_one_shot :
    (∀ s s2 l, Step s l s2 →
      s.acceptingJobs = 0 → s2.acceptingJobs = 0) ∧
    (∀ s s2 l, Step s l s2 →
      s2.acceptingJobs = s.acceptingJobs ∨
      (l = Label.beginWait ∧ s2.acceptingJobs = 0)) ∧
    (∀ n, (initState n).acceptingJobs = 1) := by
  refine ⟨?_, ?_, fun n => rfl⟩
  · intro s s2 l hs h0
    cases hs with
    | submit hm => exact h0
    | beginWait hm => rfl
    | endWait hm hstop => exact h0
    | dequeue w1 w2 j rest hw ht => exact h0
    | finish w1 w2 j hw => exact h0
    | park w1 w2 hw ht ha => exact h0
  · intro s s2 l hs
    cases hs with
    | submit hm => exact Or.inl rfl
    | beginWait hm => exact Or.inr ⟨rfl, rfl⟩
    | endWait hm hstop => exact Or.inl rfl
    | dequeue w1 w2 j rest hw ht => exact Or.inl rfl
    | finish w1 w2 j hw => exact Or.inl rfl
    | park w1 w2 hw ht ha => exact Or.inl rfl

/-- C6 witness: the flag stays 0 across the park step of the concrete
run. -/
theorem C6_accepting_one_shot_witness : exSt5.acceptingJobs = 0 :=
  C6_accepting_one_shot.1 exSt4 exSt5 (Label.park 0)
    (Step.park exSt4 [] [] rfl rfl
      (by simp [exSt4, exSt3, exSt2, exSt1, exSt0, initState]))
    rfl

/-- C7: `threadsStopped` starts at 0, never decreases on any transition,
and in every reachable state is bounded by `nthreads` (each worker parks
at most once). -/
theorem C7_stopped_monotone_bounded :
    (∀ s s2 l, Step s l s2 → s.threadsStopped ≤ s2.threadsStopped) ∧
    (∀ n s, Reach n s → s.threadsStopped ≤ s.nthreads) ∧
    (∀ n, (initState n).threadsStopped = 0) := by
  refine ⟨?_, ?_, fun n => rfl⟩
  · intro s s2 l hs
    cases hs with
    | submit hm => exact Nat.le_refl _
    | beginWait hm => exact Nat.le_refl _
    | endWait hm hstop => exact Nat.le_refl _
    | dequeue w1 w2 j rest hw ht => exact Nat.le_refl _
    | finish w1 w2 j hw => exact Nat.le_refl _
    | park w1 w2 hw ht ha => exact Nat.le_succ _
  · intro n s hr
    obtain ⟨hlen, _, _, hstopped, _, _, _, _⟩ := Reach_Inv hr
    have h1 := countParked_le_length s.workers
    omega

/-- C7 witness: monotonicity across the park step and the bound in the
final state of the concrete run. -/
theorem C7_stopped_monotone_bounded_witness :
    exSt4.threadsStopped ≤ exSt5.threadsStopped ∧
    exSt6.threadsStopped ≤ exSt6.nthreads :=
  ⟨C7_stopped_monotone_bounded.1 exSt4 exSt5 (Label.park 0)
      (Step.park exSt4 [] [] rfl rfl
        (by simp [exSt4, exSt3, exSt2, exSt1, exSt0, initState])),
    C7_stopped_monotone_bounded.2.1 1 exSt6 exReach6⟩

/-- C8: `JobQueue_addJob` (with a successful allocation) pushes exactly
one new item at the head of the pending list; it leaves `acceptingJobs`,
`threadsStopped` and `nthreads` unchanged; its pthread calls are exactly
lock, one `pthread_cond_signal` of `wakeWorker` (no broadcast), unlock —
it never waits on any condition variable. -/
theorem C8_addJob_frame (jq : JQ) (f p : Nat) (jq2 : JQ)
    (evs : List SyncEvent)
    (h : JobQueue_addJob jq f p (some ()) = Except.ok (jq2, evs)) :
    jq2.todo = { jobfun := f, param := p } :: jq.todo ∧
    jq2.acceptingJobs = jq.acceptingJobs ∧
    jq2.threadsStopped = jq.threadsStopped ∧
    jq2.nthreads = jq.nthreads ∧
    evs = [SyncEvent.lock, SyncEvent.signalWakeWorker, SyncEvent.unlock] ∧
    evs.count SyncEvent.signalWakeWorker = 1 ∧
    evs.count SyncEvent.broadcastWakeWorker = 0 ∧
    evs.count SyncEvent.waitWakeWorker = 0 ∧
    evs.count SyncEvent.waitWakeMain = 0 := by
  rw [JobQueue_addJob] at h
  dsimp only [checkmem] at h
  have h1 : ({ jq with todo := { jobfun := f, param := p } :: jq.todo }
      : JQ) = jq2 ∧
      [SyncEvent.lock, SyncEvent.signalWakeWorker, SyncEvent.unlock]
        = evs := by
    simpa using h
  obtain ⟨hq, he⟩ := h1
  subst hq
  subst he
  refine ⟨rfl, rfl, rfl, rfl, rfl, ?_, ?_, ?_, ?_⟩ <;> decide

/-- C8 witness: a concrete submission. -/
theorem C8_addJob_frame_witness :
    (⟨[⟨7, 9⟩], 1, 0, 3⟩ : JQ).todo = { jobfun := 7, param := 9 } ::
      (⟨[], 1, 0, 3⟩ : JQ).todo ∧
    (⟨[⟨7, 9⟩], 1, 0, 3⟩ : JQ).acceptingJobs
      = (⟨[], 1, 0, 3⟩ : JQ).acceptingJobs ∧
    (⟨[⟨7, 9⟩], 1, 0, 3⟩ : JQ).threadsStopped
      = (⟨[], 1, 0, 3⟩ : JQ).threadsStopped ∧
    (⟨[⟨7, 9⟩], 1, 0, 3⟩ : JQ).nthreads = (⟨[], 1, 0, 3⟩ : JQ).nthreads ∧
    [SyncEvent.lock, SyncEvent.signalWakeWorker, SyncEvent.unlock]
      = [SyncEvent.lock, SyncEvent.signalWakeWorker, SyncEvent.unlock] ∧
    [SyncEvent.lock, SyncEvent.signalWakeWorker,
      SyncEvent.unlock].count SyncEvent.signalWakeWorker = 1 ∧
    [SyncEvent.lock, SyncEvent.signalWakeWorker,
      SyncEvent.unlock].count SyncEvent.broadcastWakeWorker = 0 ∧
    [SyncEvent.lock, SyncEvent.signalWakeWorker,
      SyncEvent.unlock].count SyncEvent.waitWakeWorker = 0 ∧
    [SyncEvent.lock, SyncEvent.signalWakeWorker,
      SyncEvent.unlock].count SyncEvent.waitWakeMain = 0 :=
  C8_addJob_frame ⟨[], 1, 0, 3⟩ 7 9 ⟨[⟨7, 9⟩], 1, 0, 3⟩
    [SyncEvent.lock, SyncEvent.signalWakeWorker, SyncEvent.unlock] rfl

/-- C9: `Job_free` (a structurally recursive function, hence terminating
on every finite list) frees every item of the pending list exactly once —
on the empty list it frees nothing — and `JobQueue_free` then frees the
worker-handle storage and the pool structure after all residual items. -/
theorem C9_teardown_frees_all (jq : JQ) :
    (Job_free jq.todo).Perm jq.todo ∧
    Job_free ([] : List JobRec) = [] ∧
    JobQueue_free jq =
      [TeardownEvent.destroyLock, TeardownEvent.destroyWakeWorker,
       TeardownEvent.destroyWakeMain]
      ++ (Job_free jq.todo).map TeardownEvent.freeJob
      ++ [TeardownEvent.freeThreadArray, TeardownEvent.freeStruct] := by
  refine ⟨?_, rfl, rfl⟩
  rw [Job_free_eq_reverse]
  exact List.reverse_perm _

/-- C10: with `nthreads = 0` (and both allocations succeeding),
`JobQueue_new` returns a valid handle having spawned no threads, and
`JobQueue_waitOnJobs` on that handle returns immediately — its loop test
`0 < 0` is false at entry, so it performs no broadcast and no wait. -/
theorem C10_zero_threads :
    JobQueue_new 0 (some ()) (some ()) =
      Except.ok
        { jq := { todo := [], acceptingJobs := 1, threadsStopped := 0,
                  nthreads := 0 }
          threadArrayNull := false
          events := [] } ∧
    JobQueue_waitOnJobs
        { todo := [], acceptingJobs := 1, threadsStopped := 0,
          nthreads := 0 } [] =
      some ({ todo := [], acceptingJobs := 0, threadsStopped := 0,
              nthreads := 0 },
            [SyncEvent.lock, SyncEvent.unlock]) :=
  ⟨rfl, rfl⟩

end JobQueueC
